import Mathlib

/-!
Verification of the Bayesian_CBF repository core against its specification.

Shallow embedding conventions:
* numpy / torch arrays are embedded as Lean lists (`List ℚ`) along the axis
  the code manipulates (always the trailing axis for the encode/decode layer),
  or as functions out of `Fin` types for fixed-shape tensors;
* real-valued dynamics and barrier functions are embedded over `ℝ`;
* Python exceptions are embedded as an explicit error type `PyError`
  returned through `Except`.
-/

namespace BayesCBF

/-- Python exceptions raised by the code under `src/bayes_cbf`:
`RuntimeError(msg)` (raised explicitly, e.g. in `DynamicModelGP.predict`)
and `AssertionError` (raised by a failing `assert` statement). -/
inductive PyError where
  | RuntimeError (msg : String) : PyError
  | AssertionError : PyError
deriving DecidableEq, Repr

/-! ## CatEncoder (matrix_variate_multitask_model.py, lines 51-71)

`CatEncoder` records the trailing-dimension widths of its argument arrays and
encodes by concatenation along the trailing axis; `decode` splits a flat
vector back at the cumulative offsets `np.cumsum([0] + self.sizes)`, each
piece being the Python slice `X[..., s:e]`. -/

namespace CatEncoder

/-- Python slice `X[s:e]` on the trailing axis: clamps silently when the
index range exceeds the available entries (numpy/torch slicing semantics). -/
def pyslice (X : List ℚ) (s e : ℕ) : List ℚ :=
  (X.drop s).take (e - s)

/-- Cumulative offsets `np.cumsum([0] + sizes)` used by `decode`. -/
def cumsum0 (sizes : List ℕ) : List ℕ :=
  List.scanl (· + ·) 0 sizes

/-- Embedding of `CatEncoder.encode(*arrays)`: concatenation along the trailing axis. -/
def encode (arrays : List (List ℚ)) : List ℚ :=
  arrays.flatten

/-- Embedding of `CatEncoder.decode(X)`: `[X[..., s:e] for s, e in zip(idxs[:-1], idxs[1:])]`
with `idxs = np.cumsum([0] + self.sizes)`. -/
def decode (sizes : List ℕ) (X : List ℚ) : List (List ℚ) :=
  let idxs := cumsum0 sizes
  (idxs.zip idxs.tail).map (fun se => pyslice X se.1 se.2)

/-- Embedding of `CatEncoder.from_data(*arrays)`: records every array's trailing width and
returns the recorded widths together with the encoded concatenation. -/
def from_data (arrays : List (List ℚ)) : List ℕ × List ℚ :=
  (arrays.map List.length, encode arrays)

/-- Sequential-splitting description of `decode`: the zipped cumulative
offsets peel one recorded width after the other off the front of `X`. -/
def decodeSplits : List ℕ → List ℚ → List (List ℚ)
  | [], _ => []
  | n :: ns, X => X.take n :: decodeSplits ns (X.drop n)

end CatEncoder

/-! ## DynamicModelGP fit/predict lifecycle
(matrix_variate_multitask_model.py, lines 208-284)

`DynamicModelGP.__init__` sets `self.likelihood = None` and `self.model = None`;
`_fit_with_warnings` assigns both before training; `predict` first checks
`if self.model is None or self.likelihood is None` and raises
`RuntimeError("Call fit() with training data before calling predict")`,
and only otherwise evaluates the posterior. The fitted model and the
posterior evaluation are abstracted as the type parameter `α` and the
function argument `evalPosterior`. -/

/-- State of a `DynamicModelGP` wrapper: the optional likelihood and the
optional fitted model (both `None` until the first `fit`). -/
structure DynamicModelGP (α : Type) where
  likelihood : Option Unit
  model : Option α

/-- Embedding of `DynamicModelGP.__init__`: no likelihood and no model yet. -/
def DynamicModelGP.init (α : Type) : DynamicModelGP α :=
  { likelihood := none, model := none }

/-- Embedding of `DynamicModelGP._fit_with_warnings`: installs a fresh likelihood and a
model built from the training data (abstracted as `mdl`), then optimizes the
hyperparameters in place; the wrapper state afterwards has both fields set. -/
def DynamicModelGP.fit {α : Type} (_g : DynamicModelGP α) (mdl : α) :
    DynamicModelGP α :=
  { likelihood := some (), model := some mdl }

/-- Embedding of `DynamicModelGP.predict`: raises
`RuntimeError("Call fit() with training data before calling predict")` when
either field is still `None`, and evaluates the posterior otherwise. -/
def DynamicModelGP.predict {α β : Type} (g : DynamicModelGP α)
    (evalPosterior : α → β) : Except PyError β :=
  match g.model, g.likelihood with
  | some m, some _ => Except.ok (evalPosterior m)
  | _, _ => Except.error
      (PyError.RuntimeError "Call fit() with training data before calling predict")

/-! ## Heterogeneous batch split
(matrix_variate_multitask_kernel.py lines 112-127,
matrix_variate_multitask_model.py lines 135-147)

Both `HetergeneousMatrixVariateKernel.mask_dependent_covar` and
`HetergeneousMatrixVariateMean.forward` locate the boundary between
derivative-type rows (mask 1) and value-type rows (mask 0) of a batch by
`idxend = torch.min(torch.nonzero(Ms - ones))` (the first index whose mask
entry differs from 1, or the batch size when there is none) and then run
`assert (Ms[..., idxend:] == 0).all()`. -/

/-- Index of the first mask entry different from 1
(`torch.min(torch.nonzero(Ms - ones))`, or `Ms.size(-1)` when `nonzero` is
empty). -/
def idxend (Ms : List ℚ) : ℕ :=
  Ms.findIdx (fun a => decide (a ≠ 1))

/-- Split-finding step shared by the heterogeneous kernel and mean: computes
`idxend` and runs the `assert (Ms[..., idxend:] == 0).all()` guard; a failing
`assert` raises `AssertionError`. -/
def locateSplit (Ms : List ℚ) : Except PyError ℕ :=
  let k := idxend Ms
  if (Ms.drop k).all (fun a => decide (a = 0)) then Except.ok k
  else Except.error PyError.AssertionError

/-! ## IdentityLikelihood (matrix_variate_multitask_model.py, lines 74-107)

`IdentityLikelihood.__init__` stores `min_possible_noise = 1e-6` and a fixed
Gaussian noise container built from it; the `noise` property getter returns
the constant `0`; the setter logs a warning and discards the assigned value;
`marginal(function_dist)` returns its argument unchanged. -/

/-- Observable state of an `IdentityLikelihood`: the stored minimum noise and
the noise container it was constructed with. -/
structure IdentityLikelihood where
  min_possible_noise : ℚ
  noise_covar : ℚ

/-- Embedding of `IdentityLikelihood.__init__`. -/
def IdentityLikelihood.init : IdentityLikelihood :=
  { min_possible_noise := 1 / 1000000, noise_covar := 1 / 1000000 }

/-- The `noise` property getter: `return 0`. -/
def IdentityLikelihood.noise (_l : IdentityLikelihood) : ℚ := 0

/-- The `noise` property setter: logs "Ignore setting of noise" and leaves
the likelihood state untouched. -/
def IdentityLikelihood.set_noise (l : IdentityLikelihood) (_v : ℚ) :
    IdentityLikelihood := l

/-- Embedding of `IdentityLikelihood.marginal(function_dist)`: `return function_dist`. -/
def IdentityLikelihood.marginal {Dist : Type} (_l : IdentityLikelihood)
    (function_dist : Dist) : Dist := function_dist

/-! ## UnsafeControllerUnicycle.control (unicycle.py, lines 461-467)

  ```
  ui = self.epsilon_greedy_unsafe_control(t, xi, min_=..., max_=...)
  ui = self.unsafe_control(xi, t=t)
  return ui
  ```
The inherited controller methods `epsilon_greedy_unsafe_control` and
`unsafe_control` live in `bayes_cbf.controllers` (not part of the analysed
sources); they are abstracted as function arguments. -/

/-- Embedding of `UnsafeControllerUnicycle.control`: draws the epsilon-greedy exploratory
control, then rebinds `ui` to the deterministic unsafe control and returns
that. -/
def UnsafeControllerUnicycle.control {St T B Ctrl : Type}
    (epsilon_greedy_unsafe_control : T → St → B → B → Ctrl)
    (unsafe_control : St → T → Ctrl)
    (ctrl_range_min ctrl_range_max : B) (xi : St) (t : T) : Ctrl :=
  let _ui := epsilon_greedy_unsafe_control t xi ctrl_range_min ctrl_range_max
  let ui := unsafe_control xi t
  ui

/-! ## Epsilon schedule (misc.py, lines 216-220)

  ```
  def epsilon(i, interpolate={0: 1, 1000: 0.01}):
      ((si, sv), (ei, ev)) = list(interpolate.items())
      return math.exp((i-si)/(ei-si)*(math.log(ev)-math.log(sv)) + math.log(sv))
  ```
The interpolation endpoints `{si: sv, ei: ev}` become explicit arguments. -/

/-- Exponentially interpolated epsilon-greedy schedule. -/
noncomputable def epsilon (i si sv ei ev : ℝ) : ℝ :=
  Real.exp ((i - si) / (ei - si) * (Real.log ev - Real.log sv) + Real.log sv)

/-! ## torch_kron and the matrix-variate task covariance
(misc.py lines 61-77, matrix_variate_multitask_kernel.py lines 18-49)

`torch_kron(A, B)` for batched matrices `A : b x n x n`, `B : b x p x p`
reshapes `A` to `(b, n, 1, n, 1)` and `B` to `(b, 1, p, 1, p)`, multiplies
with broadcasting, and reshapes the product to `(b, n*p, n*p)`.
The broadcast product is the 5-dimensional tensor
`T[k, i, r, j, s] = A[k, i, j] * B[k, r, s]`; the final row-major reshape
reads entry `(y, z)` of the result as `T[k, y / p, y % p, z / p, z % p]`.

`MatrixVariateIndexKernel.covar_matrix` returns
`KroneckerProductLazyTensor(V, U)`; the lazy tensor is a gpytorch
(external dependency) operator whose matrix product applies the Kronecker
factors one at a time and whose dense evaluation multiplies the operator
with the columns of the identity. -/

/-- Broadcast product of `A.reshape(b, n, 1, n, 1)` and
`B.reshape(b, 1, p, 1, p)`. -/
def torch_kron_mid {b n p : ℕ} (A : Fin b → Fin n → Fin n → ℚ)
    (B : Fin b → Fin p → Fin p → ℚ) :
    Fin b → Fin n → Fin p → Fin n → Fin p → ℚ :=
  fun k i r j s => A k i j * B k r s

/-- Row-major flattening of an index pair, i.e. the position of entry
`(i, r)` of an `n x p` array after `reshape(n*p)`. -/
def finFlat {n p : ℕ} (i : Fin n) (r : Fin p) : Fin (n * p) :=
  ⟨i.val * p + r.val, by
    have h1 : i.val * p + r.val < (i.val + 1) * p := by
      have hr := r.isLt
      have : (i.val + 1) * p = i.val * p + p := by ring
      omega
    have h2 : (i.val + 1) * p ≤ n * p := mul_le_mul_right' i.isLt p
    omega⟩

/-- First component of the row-major unflattening of `Fin (n * p)`. -/
def finDiv {n p : ℕ} (y : Fin (n * p)) : Fin n :=
  ⟨y.val / p, by
    have hp : 0 < p := by
      rcases Nat.eq_zero_or_pos p with h0 | h0
      · subst h0; exact absurd y.isLt (by simp)
      · exact h0
    exact (Nat.div_lt_iff_lt_mul hp).mpr y.isLt⟩

/-- Second component of the row-major unflattening of `Fin (n * p)`. -/
def finMod {n p : ℕ} (y : Fin (n * p)) : Fin p :=
  ⟨y.val % p, by
    have hp : 0 < p := by
      rcases Nat.eq_zero_or_pos p with h0 | h0
      · subst h0; exact absurd y.isLt (by simp)
      · exact h0
    exact Nat.mod_lt _ hp⟩

/-- Embedding of `torch_kron(A, B)`: the broadcast product reshaped to `(b, n*p, n*p)`. -/
def torch_kron {b n p : ℕ} (A : Fin b → Fin n → Fin n → ℚ)
    (B : Fin b → Fin p → Fin p → ℚ) :
    Fin b → Fin (n * p) → Fin (n * p) → ℚ :=
  fun k y z => torch_kron_mid A B k (finDiv y) (finMod y) (finDiv z) (finMod z)

/-- Matrix-vector product of the lazy Kronecker operator
`KroneckerProductLazyTensor(V, U)` (gpytorch dependency): the factors are
applied one after the other (the Kronecker vec trick), never materializing
the full `V ⊗ U`. -/
def kron_matmul_col {n p : ℕ} (V : Fin p → Fin p → ℚ)
    (U : Fin n → Fin n → ℚ) (x : Fin p × Fin n → ℚ) : Fin p × Fin n → ℚ :=
  fun ir => ∑ j : Fin p, V ir.1 j * (∑ s : Fin n, U ir.2 s * x (j, s))

/-- Dense evaluation of `MatrixVariateIndexKernel.covar_matrix`
(the lazy `KroneckerProductLazyTensor(V, U)`): the operator is multiplied
with each column of the identity matrix. -/
def covar_matrix_dense {n p : ℕ} (V : Fin p → Fin p → ℚ)
    (U : Fin n → Fin n → ℚ) : Fin p × Fin n → Fin p × Fin n → ℚ :=
  fun row col => kron_matmul_col V U (fun w => if w = col then 1 else 0) row

/-! ## Encoding modes of the GP engine
(matrix_variate_multitask_model.py lines 159-195 and 267-284)

`DynamicsModelExactGP.encode_from_XU(Xtrain, Utrain, M)` builds
`Mtrain` as a constant column of `M`, then
`UHtrain = torch.cat([Mtrain, Utrain], dim=1)` when `M` is truthy and
`UHtrain = zeros(N, matshape[0])` otherwise, and finally encodes
`(Mtrain, Xtrain, UHtrain)` by `CatEncoder.from_data`.
`fit` calls it with `M = 1` on the training data; `predict` calls it with
`M = 0` (no controls) on the test data, and reshapes the predictive mean to
`(-1, *matshape)` with `matshape = (1 + Utrain.size(-1), Xtrain.size(-1))`. -/

/-- Embedding of `self.matshape = (1 + Utrain.size(-1), Xtrain.size(-1))`. -/
def matshape (u_dim x_dim : ℕ) : ℕ × ℕ := (1 + u_dim, x_dim)

/-- Embedding of `DynamicsModelExactGP.encode_from_XU`: returns the recorded widths and
the encoded rows `[M | x | UH]`. -/
def encode_from_XU (x_dim u_dim : ℕ) (Xtrain : List (List ℚ))
    (Utrain : List (List ℚ)) (M : ℚ) : List ℕ × List (List ℚ) :=
  let Mtrain : List (List ℚ) := Xtrain.map (fun _ => [M])
  let UHtrain : List (List ℚ) :=
    if M ≠ 0 then List.zipWith (fun mrow urow => mrow ++ urow) Mtrain Utrain
    else Xtrain.map (fun _ => List.replicate (1 + u_dim) 0)
  ([1, x_dim, 1 + u_dim],
   List.zipWith (fun mrow xu => mrow ++ xu) Mtrain
     (List.zipWith (fun xrow uhrow => xrow ++ uhrow) Xtrain UHtrain))

/-! ## ObstacleCBF (unicycle.py, lines 90-134)

  ```
  def cbf(self, x):      return ((x[:2] - self.center)**2).sum(-1) - self.radius**2
  def grad_cbf(self, x): return torch.cat([2 * x[..., :2], x.new_zeros(..., 1)], dim=-1)
  def A(self, x):        return -self.grad_cbf(x) @ self.model.g_func(x)
  def b(self, x):        return self.grad_cbf(x) @ self.model.f_func(x) + self.gamma * self.cbf(x)
  ```
The deterministic dynamics model is abstracted as the pair `(f, g)`; the
concrete `UnicycleDynamicsModel` from the same file is also embedded. -/

namespace ObstacleCBF

/-- Embedding of `ObstacleCBF.cbf`: squared distance of the planar part of the state from
the obstacle center, minus the squared radius. -/
noncomputable def cbf (c : Fin 2 → ℝ) (r : ℝ) (x : Fin 3 → ℝ) : ℝ :=
  (∑ i : Fin 2, (x i.castSucc - c i) ^ 2) - r ^ 2

/-- Embedding of `ObstacleCBF.grad_cbf`: `cat([2 * x[..., :2], zeros(1)])` - note that the
obstacle center is NOT subtracted. -/
noncomputable def grad_cbf (x : Fin 3 → ℝ) : Fin 3 → ℝ :=
  ![2 * x 0, 2 * x 1, 0]

/-- Embedding of `ObstacleCBF.A(x) = -grad_cbf(x) @ g(x)`. -/
noncomputable def A (g : (Fin 3 → ℝ) → Fin 3 → Fin 2 → ℝ) (x : Fin 3 → ℝ) : Fin 2 → ℝ :=
  fun j => -(∑ i : Fin 3, grad_cbf x i * g x i j)

/-- Embedding of `ObstacleCBF.b(x) = grad_cbf(x) @ f(x) + gamma * cbf(x)`. -/
noncomputable def b (f : (Fin 3 → ℝ) → Fin 3 → ℝ) (c : Fin 2 → ℝ) (r γ : ℝ)
    (x : Fin 3 → ℝ) : ℝ :=
  (∑ i : Fin 3, grad_cbf x i * f x i) + γ * cbf c r x

/-- The affine safety constraint `A(x) u ≤ b(x)` built by `ObstacleCBF`. -/
def constraint (f : (Fin 3 → ℝ) → Fin 3 → ℝ)
    (g : (Fin 3 → ℝ) → Fin 3 → Fin 2 → ℝ) (c : Fin 2 → ℝ) (r γ : ℝ)
    (x : Fin 3 → ℝ) (u : Fin 2 → ℝ) : Prop :=
  (∑ j : Fin 2, A g x j * u j) ≤ b f c r γ x

/-- Modelled from the spec: the true gradient of the barrier
`h(x) = (x[:2] - c)² - r²`, namely `[2 (x₀ - c₀), 2 (x₁ - c₁), 0]` - what
`grad_cbf` would have to return for the constraint to certify the barrier
condition for a center `c ≠ 0`. -/
noncomputable def spec_grad_cbf (c : Fin 2 → ℝ) (x : Fin 3 → ℝ) : Fin 3 → ℝ :=
  ![2 * (x 0 - c 0), 2 * (x 1 - c 1), 0]

/-- The barrier condition of the claim:
`∇h(x)ᵀ (f(x) + g(x) u) + γ h(x) ≥ 0` for the true barrier
`h(x) = (x[:2] - c)² - r²`. -/
def barrier_cond (f : (Fin 3 → ℝ) → Fin 3 → ℝ)
    (g : (Fin 3 → ℝ) → Fin 3 → Fin 2 → ℝ) (c : Fin 2 → ℝ) (r γ : ℝ)
    (x : Fin 3 → ℝ) (u : Fin 2 → ℝ) : Prop :=
  0 ≤ (∑ i : Fin 3, spec_grad_cbf c x i * (f x i + ∑ j : Fin 2, g x i j * u j))
      + γ * cbf c r x

end ObstacleCBF

/-- Embedding of `UnicycleDynamicsModel.f_func`: the zero drift field. -/
noncomputable def UnicycleDynamicsModel.f_func (_x : Fin 3 → ℝ) : Fin 3 → ℝ :=
  fun _ => 0

/-- Embedding of `UnicycleDynamicsModel.g_func`:
rows `[cos θ, 0]`, `[sin θ, 0]`, `[0, 1]` with `θ = x 2`. -/
noncomputable def UnicycleDynamicsModel.g_func (x : Fin 3 → ℝ) : Fin 3 → Fin 2 → ℝ :=
  ![![Real.cos (x 2), 0], ![Real.sin (x 2), 0], ![0, 1]]

/-! ## Helper lemmas and theorems -/

lemma CatEncoder.decode_scanl_eq (sizes : List ℕ) :
    ∀ (a : ℕ) (X : List ℚ),
      ((List.scanl (· + ·) a sizes).zip (List.scanl (· + ·) a sizes).tail).map
          (fun se => pyslice X se.1 se.2)
        = decodeSplits sizes (X.drop a) := by
  induction sizes with
  | nil =>
      intro a X
      simp [List.scanl_nil, decodeSplits]
  | cons n ns ih =>
      intro a X
      cases ns with
      | nil =>
          simp [List.scanl_cons, List.scanl_nil, decodeSplits, pyslice,
                Nat.add_sub_cancel_left]
      | cons m ms =>
          have hih := ih (a + n) X
          have hcons : ∀ b : ℕ, List.scanl (· + ·) b (m :: ms)
              = b :: List.scanl (· + ·) (b + m) ms := fun b => by
            rw [List.scanl_cons, List.singleton_append]
          rw [List.scanl_cons, List.singleton_append, hcons (a + n)]
          rw [hcons (a + n)] at hih
          simp only [List.tail_cons] at hih
          simp only [List.tail_cons, List.zip_cons_cons, List.map_cons]
          rw [hih]
          simp only [decodeSplits, pyslice, Nat.add_sub_cancel_left,
                     List.drop_drop]

lemma CatEncoder.decode_eq_decodeSplits (sizes : List ℕ) (X : List ℚ) :
    decode sizes X = decodeSplits sizes X := by
  have h := decode_scanl_eq sizes 0 X
  simpa [decode, cumsum0] using h

lemma CatEncoder.decodeSplits_of_flatten :
    ∀ arrays : List (List ℚ),
      decodeSplits (arrays.map List.length) arrays.flatten = arrays := by
  intro arrays
  induction arrays with
  | nil => rfl
  | cons a as ih =>
      simp only [List.map_cons, List.flatten_cons, decodeSplits]
      rw [List.take_left, List.drop_left, ih]

lemma CatEncoder.take_split (X : List ℚ) : ∀ (m n : ℕ),
    X.take (m + n) = X.take m ++ (X.drop m).take n := by
  induction X with
  | nil => intro m n; simp
  | cons x xs ih =>
      intro m n
      cases m with
      | zero => simp
      | succ m =>
          simp only [Nat.succ_add, List.take_succ_cons, List.drop_succ_cons]
          rw [ih m n]
          simp

lemma CatEncoder.flatten_decodeSplits :
    ∀ (sizes : List ℕ) (X : List ℚ),
      (decodeSplits sizes X).flatten = X.take sizes.sum := by
  intro sizes
  induction sizes with
  | nil => intro X; simp [decodeSplits]
  | cons n ns ih =>
      intro X
      simp only [decodeSplits, List.flatten_cons, List.sum_cons, ih]
      exact (take_split X n ns.sum).symm

lemma CatEncoder.length_decodeSplits :
    ∀ (sizes : List ℕ) (X : List ℚ),
      (decodeSplits sizes X).length = sizes.length := by
  intro sizes
  induction sizes with
  | nil => intro X; rfl
  | cons n ns ih => intro X; simp [decodeSplits, ih]

/-- C2 (counterexample): with recorded widths `[1, 2]` and an input of width
`2 ≠ 1 + 2`, `decode` does not fail: it silently returns the truncated slices
`[[5], [7]]`. There is no width validation and no `ShapeMismatch` error
anywhere in `CatEncoder.decode`. -/
theorem catEncoder_decode_no_width_check :
    (([5, 7] : List ℚ).length ≠ ([1, 2] : List ℕ).sum)
    ∧ CatEncoder.decode [1, 2] [5, 7] = [[5], [7]] := by
  constructor
  · decide
  · rfl

/-- C2 (amended): `decode` never fails: for every recorded width list and
every input `X` it returns exactly one slice per recorded width, located at
the cumulative offsets with Python truncation semantics, so the concatenation
of the returned pieces is the first `sum of widths` entries of `X`. A
width-mismatched `X` is silently sliced, never rejected. -/
theorem catEncoder_decode_total (sizes : List ℕ) (X : List ℚ) :
    (CatEncoder.decode sizes X).length = sizes.length
    ∧ (CatEncoder.decode sizes X).flatten = X.take sizes.sum := by
  rw [CatEncoder.decode_eq_decodeSplits]
  exact ⟨CatEncoder.length_decodeSplits sizes X,
         CatEncoder.flatten_decodeSplits sizes X⟩

/-- C3: for every shape-compatible triple `(a, b, c)`, the `CatEncoder`
built by `from_data` satisfies `decode (encode (a, b, c)) = (a, b, c)`, and
for every `X` whose trailing width equals the sum of the recorded widths,
`encode (decode X) = X`. -/
theorem catEncoder_roundtrip (a b c : List ℚ) :
    CatEncoder.decode (CatEncoder.from_data [a, b, c]).1
        (CatEncoder.from_data [a, b, c]).2 = [a, b, c]
    ∧ ∀ X : List ℚ, X.length = ((CatEncoder.from_data [a, b, c]).1).sum →
        CatEncoder.encode
          (CatEncoder.decode (CatEncoder.from_data [a, b, c]).1 X) = X := by
  constructor
  · rw [CatEncoder.from_data, CatEncoder.decode_eq_decodeSplits]
    exact CatEncoder.decodeSplits_of_flatten [a, b, c]
  · intro X hX
    rw [CatEncoder.from_data] at hX ⊢
    rw [CatEncoder.encode, CatEncoder.decode_eq_decodeSplits,
        CatEncoder.flatten_decodeSplits, ← hX, List.take_length]

/-- C3 (witness): the round trip evaluated at the concrete arrays
`a = [1]`, `b = [2, 3]`, `c = [4]` and the width-compatible flat vector
`X = [9, 8, 7, 6]`. -/
theorem catEncoder_roundtrip_witness :
    CatEncoder.encode
      (CatEncoder.decode
        (CatEncoder.from_data [[1], [2, 3], [4]]).1 [9, 8, 7, 6])
      = ([9, 8, 7, 6] : List ℚ) :=
  (catEncoder_roundtrip [1] [2, 3] [4]).2 [9, 8, 7, 6] (by decide)

/-- C4 (counterexample): `predict` before any `fit` raises the built-in
`RuntimeError` with message "Call fit() with training data before calling
predict" - not a dedicated `NotFittedError`, which exists nowhere in the
code. -/
theorem dynamicModelGP_predict_raises_runtimeError :
    (DynamicModelGP.init ℕ).predict (fun n => n)
      = Except.error
          (PyError.RuntimeError
            "Call fit() with training data before calling predict") := rfl

/-- C4 (amended): calling `predict` before any successful `fit` raises
`RuntimeError("Call fit() with training data before calling predict")` - the
not-fitted condition is detected before any posterior evaluation is attempted
(the error is returned for every posterior evaluator) - and after a
successful `fit`, `predict` does not raise on that ground. -/
theorem dynamicModelGP_predict_before_fit {α β : Type} :
    (∀ evalPosterior : α → β,
      (DynamicModelGP.init α).predict evalPosterior
        = Except.error
            (PyError.RuntimeError
              "Call fit() with training data before calling predict"))
    ∧ ∀ (g : DynamicModelGP α) (mdl : α) (evalPosterior : α → β),
        (g.fit mdl).predict evalPosterior
          = Except.ok (evalPosterior mdl) :=
  ⟨fun _ => rfl, fun _ _ _ => rfl⟩

lemma locateSplit_one_cons (tl : List ℚ) :
    locateSplit (1 :: tl) = (locateSplit tl).map (· + 1) := by
  have hidx : idxend (1 :: tl) = idxend tl + 1 := by
    simp [idxend, List.findIdx_cons]
  simp only [locateSplit, hidx, List.drop_succ_cons]
  by_cases h : (tl.drop (idxend tl)).all (fun a => decide (a = 0)) = true
  · simp [h, Except.map]
  · simp only [Bool.not_eq_true] at h
    simp [h, Except.map]

lemma locateSplit_zero_cons (tl : List ℚ) :
    locateSplit (0 :: tl)
      = if tl.all (fun a => decide (a = 0)) then Except.ok 0
        else Except.error PyError.AssertionError := by
  have hidx : idxend (0 :: tl) = 0 := by
    simp [idxend, List.findIdx_cons]
  simp only [locateSplit, hidx, List.drop_zero, List.all_cons]
  norm_num

lemma sorted_ge_of_all_zero (l : List ℚ) (h : ∀ b ∈ l, b = 0) :
    l.Sorted (· ≥ ·) := by
  induction l with
  | nil => exact List.sorted_nil
  | cons a tl ih =>
      refine List.sorted_cons.mpr ⟨fun b hb => ?_, ?_⟩
      · rw [h a (List.mem_cons_self a tl), h b (List.mem_cons_of_mem a hb)]
      · exact ih fun b hb => h b (List.mem_cons_of_mem a hb)

/-- C5 (amended): for a 0/1 mask column, both the heterogeneous kernel and
the heterogeneous mean locate the split index `k` equal to the number of
mask-1 rows whenever the column is sorted descending, and whenever it is not
sorted descending the shared split-finding step fails with the Python
`AssertionError` raised by the `assert (Ms[..., idxend:] == 0).all()` guard
(there is no dedicated `UnsortedBatchError` in the code), so no covariance or
mean is returned. -/
theorem locateSplit_sorted_count (Ms : List ℚ)
    (h01 : ∀ a ∈ Ms, a = 0 ∨ a = 1) :
    (Ms.Sorted (· ≥ ·) → locateSplit Ms = Except.ok (Ms.count 1))
    ∧ (¬ Ms.Sorted (· ≥ ·)
        → locateSplit Ms = Except.error PyError.AssertionError) := by
  induction Ms with
  | nil =>
      refine ⟨fun _ => rfl, fun h => absurd List.sorted_nil h⟩
  | cons a tl ih =>
      have h01tl : ∀ x ∈ tl, x = 0 ∨ x = 1 :=
        fun x hx => h01 x (List.mem_cons_of_mem a hx)
      rcases h01 a (List.mem_cons_self a tl) with ha | ha
      · subst ha
        constructor
        · intro hsort
          have hall : ∀ b ∈ tl, b = 0 := by
            intro b hb
            have hle : (0 : ℚ) ≥ b := (List.sorted_cons.mp hsort).1 b hb
            rcases h01tl b hb with h0 | h1
            · exact h0
            · rw [h1] at hle; norm_num at hle
          have hallb : tl.all (fun a => decide (a = 0)) = true := by
            rw [List.all_eq_true]
            intro b hb
            exact decide_eq_true (hall b hb)
          rw [locateSplit_zero_cons, if_pos hallb]
          have hcount : (0 :: tl).count (1 : ℚ) = 0 := by
            rw [List.count_eq_zero]
            intro hmem
            rcases List.mem_cons.mp hmem with h0 | h1
            · norm_num at h0
            · have := hall 1 h1; norm_num at this
          rw [hcount]
        · intro hns
          rw [locateSplit_zero_cons]
          by_cases hallb : tl.all (fun a => decide (a = 0)) = true
          · exfalso
            apply hns
            have hall : ∀ b ∈ tl, b = 0 := by
              intro b hb
              exact of_decide_eq_true (List.all_eq_true.mp hallb b hb)
            refine List.sorted_cons.mpr ⟨fun b hb => ?_, ?_⟩
            · rw [hall b hb]
            · exact sorted_ge_of_all_zero tl hall
          · simp only [Bool.not_eq_true] at hallb
            rw [hallb]
            norm_num
      · subst ha
        have htl_le : ∀ b ∈ tl, (1 : ℚ) ≥ b := by
          intro b hb
          rcases h01tl b hb with h0 | h1
          · rw [h0]; norm_num
          · rw [h1]
        constructor
        · intro hsort
          have hsorttl : tl.Sorted (· ≥ ·) := (List.sorted_cons.mp hsort).2
          rw [locateSplit_one_cons, (ih h01tl).1 hsorttl]
          simp [Except.map, List.count_cons]
        · intro hns
          have hnstl : ¬ tl.Sorted (· ≥ ·) := by
            intro hsorttl
            exact hns (List.sorted_cons.mpr ⟨htl_le, hsorttl⟩)
          rw [locateSplit_one_cons, (ih h01tl).2 hnstl]
          rfl

/-- C5 (witness): the sorted branch evaluated on the concrete descending mask
column `[1, 0]`: the split index is the number of mask-1 rows, namely 1. -/
theorem locateSplit_sorted_count_witness :
    locateSplit [1, 0] = Except.ok 1 := by
  have h := (locateSplit_sorted_count [1, 0] (by norm_num)).1
    (by simp [List.sorted_cons])
  simpa using h

/-- C5 (counterexample): on the mask column `[0, 1]`, which is not sorted
descending, the split-finding step fails with the Python `AssertionError`
raised by the `assert` statement - there is no `UnsortedBatchError` class
anywhere in the code. -/
theorem locateSplit_unsorted_assertionError :
    locateSplit [0, 1] = Except.error PyError.AssertionError := by
  rfl

/-- C9: `IdentityLikelihood` keeps its effective noise at zero under every
operation: the `noise` getter always returns 0, assigning any value through
the setter leaves the whole observable state unchanged, and `marginal`
returns its input distribution unchanged. -/
theorem identityLikelihood_zero_noise :
    ∀ (l : IdentityLikelihood) (v : ℚ) (Dist : Type) (d : Dist),
      l.noise = 0 ∧ l.set_noise v = l ∧ l.marginal d = d :=
  fun _ _ _ _ => ⟨rfl, rfl, rfl⟩

/-- C10: `UnsafeControllerUnicycle.control(xi, t)` returns exactly
`unsafe_control(xi, t)`: the preceding epsilon-greedy draw is unconditionally
overwritten, so it never affects the returned control action - two
controllers differing only in their epsilon-greedy draw return the same
action. -/
theorem unsafeControllerUnicycle_control_ignores_egreedy :
    ∀ {St T B Ctrl : Type}
      (eg eg' : T → St → B → B → Ctrl) (us : St → T → Ctrl)
      (mn mx : B) (xi : St) (t : T),
      UnsafeControllerUnicycle.control eg us mn mx xi t = us xi t
      ∧ UnsafeControllerUnicycle.control eg us mn mx xi t
          = UnsafeControllerUnicycle.control eg' us mn mx xi t :=
  fun _ _ _ _ _ _ _ => ⟨rfl, rfl⟩

/-- C7: for interpolation endpoints `{si: sv, ei: ev}` with
`sv > ev > 0` (initial epsilon above final epsilon above zero) and
`si < ei`, the schedule takes the initial value at `si`, the final value at
`ei`, and is strictly monotonically decreasing between `si` and `ei`. -/
theorem epsilon_schedule (si sv ei ev : ℝ)
    (hev : 0 < ev) (hlt : ev < sv) (hse : si < ei) :
    epsilon si si sv ei ev = sv
    ∧ epsilon ei si sv ei ev = ev
    ∧ ∀ i1 i2 : ℝ, si ≤ i1 → i1 < i2 → i2 ≤ ei →
        epsilon i2 si sv ei ev < epsilon i1 si sv ei ev := by
  have hsv : 0 < sv := hev.trans hlt
  have hden : 0 < ei - si := sub_pos.mpr hse
  refine ⟨?_, ?_, ?_⟩
  · simp [epsilon, sub_self, zero_div, Real.exp_log hsv]
  · rw [epsilon, div_self (ne_of_gt hden), one_mul, sub_add_cancel,
        Real.exp_log hev]
  · intro i1 i2 _ h12 _
    apply Real.exp_lt_exp.mpr
    have hlogs : Real.log ev - Real.log sv < 0 :=
      sub_neg.mpr (Real.log_lt_log hev hlt)
    have hfrac : (i1 - si) / (ei - si) < (i2 - si) / (ei - si) := by
      apply div_lt_div_of_pos_right ?_ hden
      linarith
    have := mul_lt_mul_of_neg_right hfrac hlogs
    linarith

/-- C7 (witness): the schedule with initial epsilon 1 at step 0 and final
epsilon 1/100 at step 1000 takes those two endpoint values and is strictly
decreasing on [0, 1000]. -/
theorem epsilon_schedule_witness :
    epsilon 0 0 1 1000 (1 / 100) = 1
    ∧ epsilon 1000 0 1 1000 (1 / 100) = 1 / 100
    ∧ ∀ i1 i2 : ℝ, 0 ≤ i1 → i1 < i2 → i2 ≤ 1000 →
        epsilon i2 0 1 1000 (1 / 100) < epsilon i1 0 1 1000 (1 / 100) :=
  epsilon_schedule 0 1 1000 (1 / 100) (by norm_num) (by norm_num) (by norm_num)

lemma finDiv_finFlat {n p : ℕ} (i : Fin n) (r : Fin p) :
    finDiv (finFlat i r) = i := by
  apply Fin.ext
  show (i.val * p + r.val) / p = i.val
  rw [Nat.mul_comm i.val p, Nat.mul_add_div r.pos, Nat.div_eq_of_lt r.isLt,
      Nat.add_zero]

lemma finMod_finFlat {n p : ℕ} (i : Fin n) (r : Fin p) :
    finMod (finFlat i r) = r := by
  apply Fin.ext
  show (i.val * p + r.val) % p = r.val
  rw [Nat.mul_comm i.val p, Nat.mul_add_mod, Nat.mod_eq_of_lt r.isLt]

/-- C6: `torch_kron(A, B)[k]` has `A[k, i, j] * B[k, r, s]` at row `i*p + r`,
column `j*p + s` - i.e. its `p x p` block at block position `(i, j)` is
`A[k, i, j] * B[k]` - and the dense evaluation of the lazy
`KroneckerProductLazyTensor(V, U)` returned by
`MatrixVariateIndexKernel.covar_matrix` equals the explicit Kronecker
product: its entry at `((i', r'), (j', s'))` is `V[i', j'] * U[r', s']`. -/
theorem torch_kron_blocks {b n p : ℕ}
    (A : Fin b → Fin n → Fin n → ℚ) (B : Fin b → Fin p → Fin p → ℚ)
    (V : Fin p → Fin p → ℚ) (U : Fin n → Fin n → ℚ)
    (k : Fin b) (i j : Fin n) (r s : Fin p)
    (i' j' : Fin p) (r' s' : Fin n) :
    torch_kron A B k (finFlat i r) (finFlat j s) = A k i j * B k r s
    ∧ covar_matrix_dense V U (i', r') (j', s') = V i' j' * U r' s' := by
  constructor
  · simp only [torch_kron, torch_kron_mid, finDiv_finFlat, finMod_finFlat]
  · simp only [covar_matrix_dense, kron_matmul_col]
    have hinner : ∀ j2 : Fin p,
        (∑ s2 : Fin n, U r' s2 * if ((j2, s2) : Fin p × Fin n) = (j', s')
          then (1 : ℚ) else 0)
          = if j2 = j' then U r' s' else 0 := by
      intro j2
      by_cases h : j2 = j'
      · subst h
        simp only [Prod.mk.injEq, true_and, mul_ite, mul_one, mul_zero,
                   if_pos rfl]
        rw [Finset.sum_ite_eq' Finset.univ s' (fun s2 => U r' s2)]
        simp
      · simp [Prod.mk.injEq, h]
    simp_rw [hinner]
    simp only [mul_ite, mul_zero]
    rw [Finset.sum_ite_eq' Finset.univ j' (fun j2 => V i' j2 * U r' s')]
    simp

lemma encode_from_XU_train_rows (x_dim u_dim : ℕ) :
    ∀ (X U : List (List ℚ)),
      (encode_from_XU x_dim u_dim X U 1).2
        = List.zipWith (fun x u => 1 :: (x ++ 1 :: u)) X U := by
  intro X
  induction X with
  | nil => intro U; rfl
  | cons x xs ih =>
      intro U
      cases U with
      | nil => rfl
      | cons u us =>
          have h := ih us
          simp only [encode_from_XU, if_pos (by norm_num : (1 : ℚ) ≠ 0),
                     List.map_cons, List.zipWith_cons_cons] at h ⊢
          rw [h]
          rfl

lemma encode_from_XU_test_rows (x_dim u_dim : ℕ) :
    ∀ (X U : List (List ℚ)),
      (encode_from_XU x_dim u_dim X U 0).2
        = X.map (fun x => 0 :: (x ++ List.replicate (1 + u_dim) 0)) := by
  intro X
  induction X with
  | nil => intro U; rfl
  | cons x xs ih =>
      intro U
      have h := ih U
      simp only [encode_from_XU, if_neg (by norm_num : ¬ (0 : ℚ) ≠ 0),
                 List.map_cons, List.zipWith_cons_cons] at h ⊢
      rw [h]
      rfl

lemma decode_mode_row (x_dim u_dim : ℕ) (m : ℚ) (x uh : List ℚ)
    (hx : x.length = x_dim) (huh : uh.length = 1 + u_dim) :
    CatEncoder.decode [1, x_dim, 1 + u_dim] (m :: (x ++ uh))
      = [[m], x, uh] := by
  rw [CatEncoder.decode_eq_decodeSplits]
  show (m :: (x ++ uh)).take 1 :: _ = _
  simp only [CatEncoder.decodeSplits]
  have h1 : (m :: (x ++ uh)).take 1 = [m] := rfl
  have h2 : (m :: (x ++ uh)).drop 1 = x ++ uh := rfl
  rw [h1, h2, List.take_left' hx, List.drop_left' hx, ← huh,
      List.take_length]

/-- C8 (amended): `fit` encodes every training row in derivative-type mode:
mask column 1 and auxiliary vector `1 :: u` - the control input prepended
with the constant 1 (the weight of `f` in `ẋ = [1 u]ᵀ[f g]ᵀ`), of width
`1 + ctrl-dim`, not the bare control; `predict` encodes every test row in
value-type mode: mask column 0 and auxiliary vector all zeros; the
predictive mean is reshaped per test point to
`matshape = (1 + ctrl-dim) x state-dim`. -/
theorem encode_from_XU_modes (x_dim u_dim : ℕ) :
    (∀ X U : List (List ℚ),
      (encode_from_XU x_dim u_dim X U 1).2
          = List.zipWith (fun x u => 1 :: (x ++ 1 :: u)) X U
      ∧ (encode_from_XU x_dim u_dim X U 0).2
          = X.map (fun x => 0 :: (x ++ List.replicate (1 + u_dim) 0)))
    ∧ (∀ x u : List ℚ, x.length = x_dim → u.length = u_dim →
        CatEncoder.decode [1, x_dim, 1 + u_dim] (1 :: (x ++ 1 :: u))
            = [[1], x, 1 :: u]
        ∧ CatEncoder.decode [1, x_dim, 1 + u_dim]
              (0 :: (x ++ List.replicate (1 + u_dim) 0))
            = [[0], x, List.replicate (1 + u_dim) 0])
    ∧ matshape u_dim x_dim = (1 + u_dim, x_dim) := by
  refine ⟨fun X U => ⟨encode_from_XU_train_rows x_dim u_dim X U,
                      encode_from_XU_test_rows x_dim u_dim X U⟩,
          fun x u hx hu => ⟨?_, ?_⟩, rfl⟩
  · exact decode_mode_row x_dim u_dim 1 x (1 :: u) hx (by simp [hu, Nat.add_comm])
  · exact decode_mode_row x_dim u_dim 0 x (List.replicate (1 + u_dim) 0) hx
      (by simp)

/-- C8 (witness): the encoding modes evaluated at the concrete state row
`x = [5, 6, 7]` and control row `u = [2, 3]`. -/
theorem encode_from_XU_modes_witness :
    CatEncoder.decode [1, 3, 1 + 2] (1 :: ([5, 6, 7] ++ 1 :: [2, 3]))
      = [[1], [5, 6, 7], 1 :: [2, 3]] :=
  ((encode_from_XU_modes 3 2).2.1 [5, 6, 7] [2, 3] (by decide) (by decide)).1

/-- C8 (counterexample): for the single training pair `x = [5, 6, 7]`,
`u = [2, 3]`, the encoded row is `[1, 5, 6, 7, 1, 2, 3]` and its decoded
auxiliary component is `[1, 2, 3]` - the mask value is prepended - which is
not the control input `[2, 3]` claimed by the specification. -/
theorem encode_from_XU_aux_not_ctrl :
    (encode_from_XU 3 2 [[5, 6, 7]] [[2, 3]] 1).2 = [[1, 5, 6, 7, 1, 2, 3]]
    ∧ CatEncoder.decode [1, 3, 1 + 2] [1, 5, 6, 7, 1, 2, 3]
        = [[1], [5, 6, 7], [1, 2, 3]]
    ∧ ([1, 2, 3] : List ℚ) ≠ [2, 3] := by
  refine ⟨by decide, by decide, by decide⟩

/-- C1 (code bug): for the obstacle centered at `c = (2, 0)` with radius 1,
`γ = 40`, the unicycle state `x = (0.95, 0, 0)` and the control
`u = (5, 0)`, the constraint `A(x) u ≤ b(x)` built by `ObstacleCBF` over the
deterministic unicycle dynamics is satisfied, yet the barrier condition
`∇h(x)ᵀ(f(x) + g(x) u) + γ h(x) ≥ 0` for the true barrier
`h(x) = (x[:2] - c)² - r²` fails: `grad_cbf` ignores the obstacle center, so
for `c ≠ 0` the built constraint does not certify the claimed barrier
inequality. -/
theorem obstacleCBF_constraint_not_barrier :
    ObstacleCBF.constraint UnicycleDynamicsModel.f_func
        UnicycleDynamicsModel.g_func ![2, 0] 1 40 ![19 / 20, 0, 0] ![5, 0]
    ∧ ¬ ObstacleCBF.barrier_cond UnicycleDynamicsModel.f_func
        UnicycleDynamicsModel.g_func ![2, 0] 1 40 ![19 / 20, 0, 0] ![5, 0] := by
  have hx2 : (![19 / 20, 0, 0] : Fin 3 → ℝ) 2 = 0 := rfl
  constructor
  · simp only [ObstacleCBF.constraint, ObstacleCBF.A, ObstacleCBF.b,
               ObstacleCBF.cbf, ObstacleCBF.grad_cbf,
               UnicycleDynamicsModel.f_func, UnicycleDynamicsModel.g_func,
               Fin.sum_univ_three, Fin.sum_univ_two]
    norm_num [hx2, Real.cos_zero, Real.sin_zero, Fin.castSucc_zero,
              Fin.castSucc_one]
  · simp only [ObstacleCBF.barrier_cond, ObstacleCBF.spec_grad_cbf,
               ObstacleCBF.cbf,
               UnicycleDynamicsModel.f_func, UnicycleDynamicsModel.g_func,
               Fin.sum_univ_three, Fin.sum_univ_two]
    norm_num [hx2, Real.cos_zero, Real.sin_zero, Fin.castSucc_zero,
              Fin.castSucc_one]

end BayesCBF
